import Mathlib

/-!
Verification of the `beeg` fleet-diagnostic CLI, centred on the concurrent
client-mount check runner (`src/checks/client.rs`): the per-node worker that
runs five remote probes and streams `Update` events, and the aggregator/render
loop that owns the result matrix, drains the channel, and decides termination.

Definitions are shallow embeddings of the Rust source: strings are Lean
`String`s, `anyhow::Result<ExecOutput>` is `Except String ExecOutput`, the
mpsc channel is a delivered list of (sender, update) pairs, and the render
loop is a step function driven by a finite script of per-iteration inputs
(drained events, draw result, poll result, read result).
-/

namespace Beeg

/-- `transport::ExecOutput` (transport/mod.rs): captured stdout and stderr of
one remote command. -/
structure ExecOutput where
  stdout : String
  stderr : String
deriving Repr, DecidableEq

/-- `anyhow::Result<ExecOutput>`: a transport call either succeeds with an
output or fails with an error (modelled by its display string). -/
abbrev ExecResult := Except String ExecOutput

/-- Rust `str::trim`: drop leading and trailing whitespace characters.
Embedded structurally over the character list so that it evaluates by
kernel reduction. -/
def rustTrim (s : String) : String :=
  String.mk (((s.data.dropWhile Char.isWhitespace).reverse.dropWhile
    Char.isWhitespace).reverse)

/-- Rust `str::starts_with(pat)`: the pattern is a prefix of the string. -/
def rustStartsWith (s pat : String) : Bool :=
  pat.data.isPrefixOf s.data

/-- The single-quote character, built numerically to keep source literals
simple. -/
def sq : String := String.singleton (Char.ofNat 39)

/-- Characters the `shell_escape` crate leaves unescaped (its Unix
whitelist): ASCII alphanumerics and `-_=/,.+`. -/
def shellAllowed (c : Char) : Bool :=
  c.isAlphanum || c = '-' || c = '_' || c = '=' || c = '/' || c = ',' || c = '.' || c = '+'

/-- Per-character escaping inside a single-quoted region, as in
`shell_escape::unix::escape`: a quote or bang is closed out, backslash-escaped
and reopened; everything else passes through. -/
def escChar (c : Char) : String :=
  if c = Char.ofNat 39 || c = '!' then
    sq ++ String.singleton (Char.ofNat 92) ++ String.singleton c ++ sq
  else String.singleton c

/-- `shell_escape::escape` (Unix): a non-empty all-whitelisted string is
returned unchanged; anything else is wrapped in single quotes with quotes and
bangs escaped. -/
def shellEscape (s : String) : String :=
  if s ≠ "" ∧ s.data.all shellAllowed then s
  else sq ++ String.join (s.data.map escChar) ++ sq

/-- `wrap_timeout` (client.rs:196-199): wrap a remote command as
"timeout Ns sh -lc ESCAPED" where N is the per-operation timeout in seconds
and ESCAPED is the shell-escaped command. -/
def wrap_timeout (cmd : String) (seconds : Nat) : String :=
  "timeout " ++ toString seconds ++ "s sh -lc " ++ shellEscape cmd

/-- Step 0 command (client.rs:41-44): grep the mount out of
beegfs-mounts.conf, echoing OK or MISSING. -/
def cmdMountDefined (mount : String) : String :=
  "grep -E " ++ sq ++ "^[^#].*\\s+" ++ shellEscape mount ++ "(\\s|$)" ++ sq ++
    " /etc/beegfs/beegfs-mounts.conf >/dev/null 2>&1 && echo OK || echo MISSING"

/-- Step 1 command (client.rs:50): check the two client services are active. -/
def cmdClient : String :=
  "systemctl is-active beegfs-client >/dev/null 2>&1 && systemctl is-active beegfs-helperd >/dev/null 2>&1 && echo OK || echo MISSING"

/-- Step 2 command (client.rs:56): `df -h` on the mount, header stripped. -/
def cmdDf (mount : String) : String :=
  "df -h " ++ shellEscape mount ++ " 2>&1 | tail -n +2 || true"

/-- Step 3 command (client.rs:67): list the mount, echoing OK or ERR. -/
def cmdLs (mount : String) : String :=
  "ls -la " ++ shellEscape mount ++ " >/dev/null 2>&1 && echo OK || echo ERR"

/-- The ephemeral file path used by the read-write probe (client.rs:73-74). -/
def rwFilePath (mount rnd : String) : String :=
  mount ++ "/" ++ ".beeg_check_" ++ rnd

/-- Step 4 command (client.rs:75-79): write and delete a random file under
the mount, echoing OK or ERR. -/
def cmdRw (mount rnd : String) : String :=
  "dd if=/dev/urandom of=" ++ shellEscape (rwFilePath mount rnd) ++
    " bs=4K count=1 status=none && rm -f " ++ shellEscape (rwFilePath mount rnd) ++
    " && echo OK || echo ERR"

/-- `pick_ok` (client.rs:209-217): the sentinel classifier. A transport
success is OK when the trimmed stdout starts with "OK"; otherwise, and on a
transport failure, it is ERR. -/
def pick_ok (res : ExecResult) : String :=
  match res with
  | .ok o => if rustStartsWith (rustTrim o.stdout) "OK" then "OK" else "ERR"
  | .error _ => "ERR"

/-- The df step classifier (client.rs:58-63): a success is OK when the
trimmed stdout is non-empty; an empty success is ERR; a transport failure is
ERR with the failure detail appended. -/
def classifyDf (res : ExecResult) : String :=
  match res with
  | .ok o => if rustTrim o.stdout = "" then "ERR" else "OK"
  | .error e => "ERR:" ++ e

/-- `Update` (client.rs:17-21): a progress event from a worker to the
aggregator. `Done` carries no index in the source. -/
inductive Update where
  | set (idx col : Nat) (val : String)
  | done
deriving Repr, DecidableEq

/-- `RowState` (client.rs:8-15): one row of the live result matrix; a `none`
field is a still-pending cell. -/
structure RowState where
  mount_defined : Option String := none
  client_active : Option String := none
  df : Option String := none
  ls : Option String := none
  rw : Option String := none
deriving Repr, DecidableEq

/-- `RowState::default()`: the all-pending row. -/
def RowState.init : RowState := {}

/-- The `match col` in the event drain (client.rs:109-116): write a value
into one column of a row; any column outside 0..4 falls into the `_ => {}`
arm and is ignored. -/
def setCol (st : RowState) (col : Nat) (val : String) : RowState :=
  match col with
  | 0 => { st with mount_defined := some val }
  | 1 => { st with client_active := some val }
  | 2 => { st with df := some val }
  | 3 => { st with ls := some val }
  | 4 => { st with rw := some val }
  | _ + 5 => st

/-- Read one column of a row; columns outside 0..4 do not exist and read as
`none`. -/
def colVal (st : RowState) (col : Nat) : Option String :=
  match col with
  | 0 => st.mount_defined
  | 1 => st.client_active
  | 2 => st.df
  | 3 => st.ls
  | 4 => st.rw
  | _ + 5 => none

/-- One spawned worker (client.rs:39-85), with the transport as an oracle
from command string to result: records the commands passed to `tr.exec`, in
order, and the updates sent on the channel, in order. -/
structure WorkerRun where
  cmds : List String
  trace : List Update
deriving Repr, DecidableEq

/-- The worker closure body (client.rs:39-85): run the five probes in order
against the transport, classify each, send one Set per step and a final
Done. `rnd` is the random suffix produced by `rand_suffix()`. -/
def workerBody (idx : Nat) (mount : String) (timeout : Nat) (rnd : String)
    (exec : String → ExecResult) : WorkerRun :=
  let c0 := wrap_timeout (cmdMountDefined mount) timeout
  let v0 := pick_ok (exec c0)
  let c1 := wrap_timeout cmdClient timeout
  let v1 := pick_ok (exec c1)
  let c2 := wrap_timeout (cmdDf mount) timeout
  let v2 := classifyDf (exec c2)
  let c3 := wrap_timeout (cmdLs mount) timeout
  let v3 := pick_ok (exec c3)
  let c4 := wrap_timeout (cmdRw mount rnd) timeout
  let v4 := pick_ok (exec c4)
  { cmds := [c0, c1, c2, c3, c4],
    trace := [.set idx 0 v0, .set idx 1 v1, .set idx 2 v2,
              .set idx 3 v3, .set idx 4 v4, .done] }

/-- The shape every worker trace has: one Set per column 0..4, in order,
followed by Done. -/
def traceShape (idx : Nat) (v : Nat → String) : List Update :=
  [.set idx 0 (v 0), .set idx 1 (v 1), .set idx 2 (v 2),
   .set idx 3 (v 3), .set idx 4 (v 4), .done]

/-- The aggregator state owned by the render loop (client.rs:96-98): the
result rows (node name and host are immutable identity and omitted) and the
completion counter. -/
structure AggState where
  rows : List RowState
  done_count : Nat
deriving Repr, DecidableEq

/-- The state at loop entry (client.rs:96-98): one `RowState::default()` per
node, counter zero. -/
def initState (n : Nat) : AggState :=
  { rows := List.replicate n RowState.init, done_count := 0 }

/-- Apply one drained update (client.rs:106-120): a Set writes its column
into row `idx` when that row exists (`rows.get_mut(idx)`) and is otherwise
ignored; a Done increments the completion counter. -/
def applyUpdate (s : AggState) (u : Update) : AggState :=
  match u with
  | .set idx col val =>
      match s.rows[idx]? with
      | some st => { s with rows := s.rows.set idx (setCol st col val) }
      | none => s
  | .done => { s with done_count := s.done_count + 1 }

/-- The channel content the aggregator has received: (sender index, update)
pairs in delivery order. The sender index is bookkeeping of the model — the
source `Update` itself carries no sender for Done. -/
abbrev Delivery := List (Nat × Update)

/-- The drain loop (client.rs:105-121) folded over a delivered list. -/
def applyDelivery (s : AggState) (d : Delivery) : AggState :=
  d.foldl (fun s p => applyUpdate s p.2) s

/-- Value of result-matrix cell (i, j); `none` is Pending. -/
def cellVal (s : AggState) (i j : Nat) : Option String :=
  s.rows[i]?.bind (fun st => colVal st j)

/-- The updates delivered from worker `i`, in delivery order. -/
def eventsOf (i : Nat) (d : Delivery) : List Update :=
  (d.filter (fun p => p.1 == i)).map Prod.snd

/-- Whether an update is the terminal Done event. -/
def Update.isDone : Update → Bool
  | .done => true
  | .set _ _ _ => false

/-- Number of Done events in a list of updates. -/
def countDones (l : List Update) : Nat :=
  l.countP (fun u => u.isDone)

/-- The normal-termination condition at client.rs:178:
`done_count >= total_done`. -/
def exitDone (total : Nat) (s : AggState) : Prop :=
  total ≤ s.done_count

/-- Terminal-mode transitions the run performs (client.rs:90-91 on entry,
client.rs:182-185 on the way out). -/
inductive TermOp where
  | enableRaw
  | enterAlt
  | disableRaw
  | leaveAlt
deriving Repr, DecidableEq

/-- Equality of `Except` values is decidable when it is for both sides. -/
def exceptDecEq {α β : Type} [DecidableEq α] [DecidableEq β] :
    DecidableEq (Except α β)
  | .ok x, .ok y =>
    if h : x = y then .isTrue (by rw [h])
    else .isFalse (by intro hc; cases hc; exact h rfl)
  | .ok _, .error _ => .isFalse (fun hc => Except.noConfusion hc)
  | .error _, .ok _ => .isFalse (fun hc => Except.noConfusion hc)
  | .error e, .error f =>
    if h : e = f then .isTrue (by rw [h])
    else .isFalse (by intro hc; cases hc; exact h rfl)

instance {α β : Type} [DecidableEq α] [DecidableEq β] : DecidableEq (Except α β) :=
  exceptDecEq

/-- The environment one loop iteration runs in (client.rs:103-179): the
events `try_recv` yields this time, the result of `terminal.draw`, of
`event::poll`, and of `event::read`. A read result of `some c` is a key
event for character `c`; `none` is any non-key event. -/
structure IterInput where
  evs : Delivery
  drawRes : Except String Unit
  pollRes : Except String Bool
  readRes : Except String (Option Char)
deriving Repr, DecidableEq

/-- Which of the two `break` sites ended the loop. -/
inductive LoopExit where
  | cancelled
  | allDone
deriving Repr, DecidableEq

/-- Outcome of a single iteration of the render loop. -/
inductive IterResult where
  | next (s : AggState)
  | broke (s : AggState) (e : LoopExit)
  | err (s : AggState) (msg : String)
deriving Repr, DecidableEq

/-- One iteration of the render loop (client.rs:103-179): drain and apply
every available event; draw the UI, propagating a draw error with `?`; poll
for input, propagating a poll error; if input is available, read it
(propagating a read error) and break as cancelled on the q key; finally
break as all-done when `done_count >= total_done`. -/
def stepIter (total : Nat) (s : AggState) (inp : IterInput) : IterResult :=
  let s2 := applyDelivery s inp.evs
  match inp.drawRes with
  | .error e => .err s2 e
  | .ok _ =>
    match inp.pollRes with
    | .error e => .err s2 e
    | .ok true =>
      match inp.readRes with
      | .error e => .err s2 e
      | .ok k =>
        if k = some 'q' then .broke s2 .cancelled
        else if total ≤ s2.done_count then .broke s2 .allDone
        else .next s2
    | .ok false =>
      if total ≤ s2.done_count then .broke s2 .allDone
      else .next s2

/-- State of the render loop after consuming a finite script of iteration
environments: broke out, propagated an error, or still running. -/
inductive RunOutcome where
  | finished (s : AggState) (e : LoopExit)
  | failed (s : AggState) (msg : String)
  | running (s : AggState)
deriving Repr, DecidableEq

/-- The render loop (client.rs:103-179) over a script of iteration
environments. -/
def runLoop (total : Nat) (s : AggState) : List IterInput → RunOutcome
  | [] => .running s
  | inp :: rest =>
    match stepIter total s inp with
    | .next s2 => runLoop total s2 rest
    | .broke s2 e => .finished s2 e
    | .err s2 m => .failed s2 m

/-- `run_mount_tui` from TUI setup (client.rs:89-93) to return
(client.rs:181-186): the terminal transitions performed and the result, if
the function returned at all (`none` while the loop is still live). Raw
mode and the alternate screen are entered up front; the restore code at
client.rs:182-185 runs only after the loop exits by `break` — an error
propagating out of the loop with `?` returns before it. -/
def runMountTui (total : Nat) (script : List IterInput) :
    List TermOp × Option (Except String Unit) :=
  match runLoop total (initState total) script with
  | .finished _ _ =>
      ([TermOp.enableRaw, TermOp.enterAlt, TermOp.disableRaw, TermOp.leaveAlt],
        some (Except.ok ()))
  | .failed _ m => ([TermOp.enableRaw, TermOp.enterAlt], some (Except.error m))
  | .running _ => ([TermOp.enableRaw, TermOp.enterAlt], none)

/-- `ClientMountArgs` (checks/mod.rs:24-35): the consumed run parameters of
the client-mount check — target mountpoint, node selector, per-operation
timeout in seconds. The struct has no quit-key field; the loop hardcodes
the q key (client.rs:173). -/
structure ClientMountArgs where
  mount : String
  selector : String
  timeout : Nat
deriving Repr, DecidableEq

/-- A concrete delivered channel content: one worker (index 0) delivering
its full trace in emission order. -/
def cDeliv : Delivery :=
  [(0, .set 0 0 "OK"), (0, .set 0 1 "OK"), (0, .set 0 2 "OK"),
   (0, .set 0 3 "ERR"), (0, .set 0 4 "OK"), (0, .done)]

/-- The per-step outcomes of the concrete delivery `cDeliv`. -/
def vW : Nat → String := fun j =>
  match j with
  | 3 => "ERR"
  | _ => "OK"

/-- Every worker run's trace fits `traceShape`. -/
theorem workerBody_trace_eq (idx : Nat) (mount : String) (t : Nat) (rnd : String)
    (exec : String → ExecResult) :
    ∃ v : Nat → String, (workerBody idx mount t rnd exec).trace = traceShape idx v := by
  refine ⟨fun j =>
    match j with
    | 0 => pick_ok (exec (wrap_timeout (cmdMountDefined mount) t))
    | 1 => pick_ok (exec (wrap_timeout cmdClient t))
    | 2 => classifyDf (exec (wrap_timeout (cmdDf mount) t))
    | 3 => pick_ok (exec (wrap_timeout (cmdLs mount) t))
    | _ + 4 => pick_ok (exec (wrap_timeout (cmdRw mount rnd) t)), ?_⟩
  rfl

theorem applyUpdate_rows_length (s : AggState) (u : Update) :
    (applyUpdate s u).rows.length = s.rows.length := by
  cases u with
  | set idx col val =>
    simp only [applyUpdate]
    cases h : s.rows[idx]? with
    | none => rfl
    | some st => simp
  | done => rfl

theorem applyDelivery_rows_length (d : Delivery) (s : AggState) :
    (applyDelivery s d).rows.length = s.rows.length := by
  induction d generalizing s with
  | nil => rfl
  | cons q d ih =>
    simpa [applyDelivery] using
      (ih (applyUpdate s q.2)).trans (applyUpdate_rows_length s q.2)

/-- Writing one column never clears another: every already-set column stays
set. -/
theorem colVal_setCol_isSome (st : RowState) (col j : Nat) (val : String)
    (h : (colVal st j).isSome = true) :
    (colVal (setCol st col val) j).isSome = true := by
  rcases col with _ | _ | _ | _ | _ | col <;>
    rcases j with _ | _ | _ | _ | _ | j <;>
    simp_all [setCol, colVal]

/-- Writing column `j < 5` sets it to the written value. -/
theorem colVal_setCol_self (st : RowState) (j : Nat) (val : String)
    (hj : j < 5) : colVal (setCol st j val) j = some val := by
  rcases j with _ | _ | _ | _ | _ | j <;> simp [setCol, colVal] at hj ⊢
  omega

/-- A cell that holds a value keeps holding one across any applied update. -/
theorem cellVal_isSome_mono (s : AggState) (u : Update) (i j : Nat)
    (h : (cellVal s i j).isSome = true) :
    (cellVal (applyUpdate s u) i j).isSome = true := by
  cases u with
  | done => exact h
  | set idx col val =>
    simp only [applyUpdate]
    cases hg : s.rows[idx]? with
    | none => exact h
    | some st =>
      simp only [cellVal] at h ⊢
      by_cases hii : idx = i
      · subst hii
        obtain ⟨hlen, -⟩ := List.getElem?_eq_some_iff.1 hg
        rw [List.getElem?_set_self (by simpa using hlen)]
        rw [hg] at h
        simp only [Option.some_bind] at h ⊢
        exact colVal_setCol_isSome st col j val h
      · rw [List.getElem?_set_ne hii]
        exact h

/-- Applying a Set with in-range indices stores the value in the targeted
cell. -/
theorem cellVal_applyUpdate_set (s : AggState) (idx col : Nat) (val : String)
    (hidx : idx < s.rows.length) (hcol : col < 5) :
    cellVal (applyUpdate s (Update.set idx col val)) idx col = some val := by
  simp only [applyUpdate]
  cases hg : s.rows[idx]? with
  | none =>
    have hlen := List.getElem?_eq_none_iff.1 hg
    omega
  | some st =>
    simp only [cellVal]
    rw [List.getElem?_set_self (by simpa using hidx)]
    simp only [Option.some_bind]
    exact colVal_setCol_self st col val hcol

/-- A set cell stays set across a whole delivered list. -/
theorem cellVal_isSome_mono_delivery (d : Delivery) (s : AggState) (i j : Nat)
    (h : (cellVal s i j).isSome = true) :
    (cellVal (applyDelivery s d) i j).isSome = true := by
  induction d generalizing s with
  | nil => exact h
  | cons q d ih => exact ih (applyUpdate s q.2) (cellVal_isSome_mono s q.2 i j h)

/-- Setting an index of a list to the value it already holds is the
identity. -/
theorem list_set_self (l : List RowState) (n : Nat) (st : RowState)
    (h : l[n]? = some st) : l.set n st = l := by
  induction l generalizing n with
  | nil => cases h
  | cons a l ih =>
    cases n with
    | zero =>
      simp only [List.getElem?_cons_zero, Option.some.injEq] at h
      subst h
      rfl
    | succ n =>
      simp only [List.getElem?_cons_succ] at h
      simp [List.set, ih n h]

/-- C6: applying a Set with in-range node and column indices moves the
targeted cell to a held (Some) value, and no update ever returns any cell
from Some back to None — cells only transition Pending to held, never
reset. -/
theorem matrix_cells_monotone :
    (∀ (s : AggState) (idx col : Nat) (val : String),
        idx < s.rows.length → col < 5 →
        (cellVal (applyUpdate s (Update.set idx col val)) idx col).isSome = true) ∧
    (∀ (s : AggState) (u : Update) (i j : Nat),
        (cellVal s i j).isSome = true →
        (cellVal (applyUpdate s u) i j).isSome = true) := by
  constructor
  · intro s idx col val hidx hcol
    rw [cellVal_applyUpdate_set s idx col val hidx hcol]
    rfl
  · exact cellVal_isSome_mono

/-- C6 witness: in a one-node run, Set(0,0) makes cell (0,0) held, and a
further Done event does not reset it. -/
theorem matrix_cells_monotone_witness :
    (cellVal (applyUpdate (initState 1) (Update.set 0 0 "OK")) 0 0).isSome = true ∧
    (cellVal (applyUpdate (applyUpdate (initState 1) (Update.set 0 0 "OK"))
        Update.done) 0 0).isSome = true := by
  have h1 := matrix_cells_monotone.1 (initState 1) 0 0 "OK" (by decide) (by decide)
  exact ⟨h1, matrix_cells_monotone.2 _ Update.done 0 0 h1⟩

/-- C10: a Set whose node index is out of range, or whose column index is
outside 0..4, leaves the whole aggregator state (matrix and counter)
unchanged; the drain is total and silently ignores malformed indices. -/
theorem malformed_set_ignored :
    ∀ (s : AggState) (idx col : Nat) (val : String),
      s.rows.length ≤ idx ∨ 5 ≤ col →
      applyUpdate s (Update.set idx col val) = s := by
  intro s idx col val h
  rcases h with h | h
  · simp only [applyUpdate]
    rw [List.getElem?_eq_none h]
  · simp only [applyUpdate]
    cases hg : s.rows[idx]? with
    | none => rfl
    | some st =>
      obtain ⟨c, rfl⟩ : ∃ c, col = c + 5 := ⟨col - 5, by omega⟩
      show { s with rows := s.rows.set idx st } = s
      rw [list_set_self s.rows idx st hg]

/-- C10 witness: in a one-node run, Set(5,0) and Set(0,7) are both
no-ops. -/
theorem malformed_set_ignored_witness :
    applyUpdate (initState 1) (Update.set 5 0 "X") = initState 1 ∧
    applyUpdate (initState 1) (Update.set 0 7 "X") = initState 1 :=
  ⟨malformed_set_ignored (initState 1) 5 0 "X" (Or.inl (by decide)),
   malformed_set_ignored (initState 1) 0 7 "X" (Or.inr (by decide))⟩

theorem err_detail_ne_ok (e : String) : "ERR:" ++ e ≠ "OK" := by
  intro h
  have hd := congrArg String.data h
  simp [String.data_append] at hd

/-- C1 counterexample: the trimmed output "OKAY" is not the string "OK", yet
`pick_ok` classifies it as Ok, because the source tests `starts_with("OK")`
rather than equality. -/
theorem pick_ok_okay_counterexample :
    pick_ok (Except.ok ⟨"OKAY", ""⟩) = "OK" ∧ rustTrim "OKAY" ≠ "OK" := by
  constructor
  · decide
  · decide

/-- C1 (amended): `pick_ok` classifies a result as Ok exactly when it is a
transport success whose trimmed stdout starts with "OK"; every result
classifies as either "OK" or "ERR" (transport failures always as "ERR"). -/
theorem pick_ok_spec :
    ∀ res : ExecResult,
      (pick_ok res = "OK" ↔
        ∃ o, res = Except.ok o ∧ rustStartsWith (rustTrim o.stdout) "OK" = true) ∧
      (pick_ok res = "OK" ∨ pick_ok res = "ERR") ∧
      (∀ e, pick_ok (Except.error e) = "ERR") := by
  intro res
  refine ⟨?_, ?_, fun e => rfl⟩
  · cases res with
    | ok o =>
      by_cases h : rustStartsWith (rustTrim o.stdout) "OK"
      · simp [pick_ok, h]
      · simp only [pick_ok, if_neg h]
        constructor
        · intro hco
          exact absurd hco (by decide)
        · rintro ⟨o2, ho2, hs⟩
          cases ho2
          exact absurd hs (by simp [h])
    | error e =>
      constructor
      · intro hco
        have hco2 : ("ERR" : String) = "OK" := hco
        exact absurd hco2 (by decide)
      · rintro ⟨o2, ho2, _⟩
        cases ho2
  · cases res with
    | ok o =>
      by_cases h : rustStartsWith (rustTrim o.stdout) "OK"
      · exact Or.inl (by simp [pick_ok, h])
      · exact Or.inr (by simp [pick_ok, h])
    | error e => exact Or.inr rfl

/-- C7: the df probe classifies as "OK" exactly when the transport succeeds
with non-empty trimmed stdout; a successful but empty output classifies as
"ERR", and a transport failure classifies as "ERR:" followed by the failure
detail. -/
theorem classifyDf_spec :
    ∀ res : ExecResult,
      (classifyDf res = "OK" ↔ ∃ o, res = Except.ok o ∧ rustTrim o.stdout ≠ "") ∧
      (∀ o : ExecOutput, rustTrim o.stdout = "" → classifyDf (Except.ok o) = "ERR") ∧
      (∀ e, classifyDf (Except.error e) = "ERR:" ++ e) := by
  intro res
  refine ⟨?_, fun o h => by simp [classifyDf, h], fun e => rfl⟩
  cases res with
  | ok o =>
    by_cases h : rustTrim o.stdout = ""
    · simp only [classifyDf, if_pos h]
      constructor
      · intro hco
        exact absurd hco (by decide)
      · rintro ⟨o2, ho2, hs⟩
        cases ho2
        exact (hs h).elim
    · simp only [classifyDf, if_neg h]
      constructor
      · intro _
        exact ⟨o, rfl, h⟩
      · intro _
        trivial
  | error e =>
    constructor
    · intro hco
      exact absurd hco (err_detail_ne_ok e)
    · rintro ⟨o2, ho2, _⟩
      cases ho2

/-- C7 witness: a concrete empty df output classifies as "ERR", and a
concrete non-empty one as "OK". -/
theorem classifyDf_spec_witness :
    classifyDf (Except.ok ⟨" \n", "x"⟩) = "ERR" ∧
      classifyDf (Except.ok ⟨"beegfs 1T", ""⟩) = "OK" := by
  constructor
  · exact (classifyDf_spec (Except.ok ⟨" \n", "x"⟩)).2.1 ⟨" \n", "x"⟩ (by decide)
  · exact ((classifyDf_spec (Except.ok ⟨"beegfs 1T", ""⟩)).1).2 ⟨⟨"beegfs 1T", ""⟩, rfl, by decide⟩

/-- C3: for any transport behaviour, a worker's channel trace is exactly one
Set per step in strictly increasing column order 0,1,2,3,4 — every step is
attempted regardless of earlier outcomes — followed by exactly one final
Done. -/
theorem worker_trace_shape :
    ∀ (idx : Nat) (mount : String) (t : Nat) (rnd : String)
      (exec : String → ExecResult),
      ∃ v0 v1 v2 v3 v4,
        (workerBody idx mount t rnd exec).trace =
          [Update.set idx 0 v0, Update.set idx 1 v1, Update.set idx 2 v2,
           Update.set idx 3 v3, Update.set idx 4 v4, Update.done] :=
  fun _ _ _ _ _ => ⟨_, _, _, _, _, rfl⟩

/-- C8: every string a worker passes to the transport is the step's rendered
command — mount path and ephemeral file path substituted through
`shellEscape` — wrapped as "timeout Ts sh -lc ESCAPED" with T the configured
per-operation timeout in seconds. -/
theorem worker_commands_wrapped :
    ∀ (idx : Nat) (mount : String) (t : Nat) (rnd : String)
      (exec : String → ExecResult),
      (workerBody idx mount t rnd exec).cmds =
        [wrap_timeout (cmdMountDefined mount) t, wrap_timeout cmdClient t,
         wrap_timeout (cmdDf mount) t, wrap_timeout (cmdLs mount) t,
         wrap_timeout (cmdRw mount rnd) t] ∧
      (∀ c s, wrap_timeout c s =
        "timeout " ++ toString s ++ "s sh -lc " ++ shellEscape c) ∧
      (∀ m, cmdDf m = "df -h " ++ shellEscape m ++ " 2>&1 | tail -n +2 || true") ∧
      (∀ m, cmdLs m =
        "ls -la " ++ shellEscape m ++ " >/dev/null 2>&1 && echo OK || echo ERR") ∧
      (∀ m r, cmdRw m r =
        "dd if=/dev/urandom of=" ++ shellEscape (rwFilePath m r) ++
          " bs=4K count=1 status=none && rm -f " ++ shellEscape (rwFilePath m r) ++
          " && echo OK || echo ERR") :=
  fun _ _ _ _ _ =>
    ⟨rfl, fun _ _ => rfl, fun _ => rfl, fun _ => rfl, fun _ _ => rfl⟩

/-- A Set event with in-range indices occurring anywhere in the delivered
list leaves its target cell held once the whole list is applied. -/
theorem cell_some_of_mem_delivery (d : Delivery) (s : AggState) (i j : Nat)
    (val : String) (hmem : ∃ p ∈ d, p.2 = Update.set i j val)
    (hi : i < s.rows.length) (hj : j < 5) :
    (cellVal (applyDelivery s d) i j).isSome = true := by
  induction d generalizing s with
  | nil =>
    obtain ⟨p, hp, -⟩ := hmem
    cases hp
  | cons q d ih =>
    obtain ⟨p, hp, hpe⟩ := hmem
    rcases List.mem_cons.1 hp with h | h
    · subst h
      show (cellVal (applyDelivery (applyUpdate s p.2) d) i j).isSome = true
      apply cellVal_isSome_mono_delivery
      rw [hpe, cellVal_applyUpdate_set s i j val hi hj]
      rfl
    · exact ih (applyUpdate s q.2) ⟨p, h, hpe⟩
        (by rw [applyUpdate_rows_length]; exact hi)

/-- Each in-range column's Set event occurs in a full trace. -/
theorem set_mem_traceShape (i j : Nat) (v : Nat → String) (hj : j < 5) :
    Update.set i j (v j) ∈ traceShape i v := by
  interval_cases j <;> simp [traceShape]

theorem mem_delivery_of_mem_eventsOf (i : Nat) (d : Delivery) (u : Update)
    (h : u ∈ eventsOf i d) : ∃ p ∈ d, p.2 = u := by
  simp only [eventsOf, List.mem_map] at h
  obtain ⟨p, hp, rfl⟩ := h
  exact ⟨p, (List.mem_filter.1 hp).1, rfl⟩

/-- C4: when every one of the N workers has delivered its full event trace
in emission order and the loop exits through the all-done condition, every
cell of the N-by-5 matrix holds a value — none is still Pending. -/
theorem done_matrix_complete :
    ∀ (N : Nat) (d : Delivery),
      (∀ i, i < N → ∃ v : Nat → String, eventsOf i d = traceShape i v) →
      exitDone N (applyDelivery (initState N) d) →
      ∀ i j, i < N → j < 5 →
        (cellVal (applyDelivery (initState N) d) i j).isSome = true := by
  intro N d hfull _ i j hi hj
  obtain ⟨v, hv⟩ := hfull i hi
  have hmem : Update.set i j (v j) ∈ eventsOf i d := by
    rw [hv]
    exact set_mem_traceShape i j v hj
  exact cell_some_of_mem_delivery d (initState N) i j (v j)
    (mem_delivery_of_mem_eventsOf i d _ hmem)
    (by simpa [initState] using hi) hj

/-- C4 witness: one node, full trace delivered, all-done exit — the df cell
(0, 2) is held. -/
theorem done_matrix_complete_witness :
    (cellVal (applyDelivery (initState 1) cDeliv) 0 2).isSome = true := by
  refine done_matrix_complete 1 cDeliv ?_ ?_ 0 2 (by decide) (by decide)
  · intro i hi
    have hi0 : i = 0 := by omega
    subst hi0
    exact ⟨vW, by decide⟩
  · show (1 : Nat) ≤ (applyDelivery (initState 1) cDeliv).done_count
    decide

theorem done_count_applyUpdate (s : AggState) (u : Update) :
    (applyUpdate s u).done_count = s.done_count + (if u.isDone then 1 else 0) := by
  cases u with
  | set idx col val =>
    simp only [applyUpdate, Update.isDone, if_neg]
    cases hg : s.rows[idx]? <;> simp
  | done => simp [applyUpdate, Update.isDone]

theorem done_count_applyDelivery (d : Delivery) (s : AggState) :
    (applyDelivery s d).done_count = s.done_count + countDones (d.map Prod.snd) := by
  induction d generalizing s with
  | nil => simp [applyDelivery, countDones]
  | cons q d ih =>
    show (applyDelivery (applyUpdate s q.2) d).done_count = _
    rw [ih, done_count_applyUpdate]
    simp only [List.map_cons, countDones, List.countP_cons]
    omega

/-- The delivered Done count splits as the sum of each sender's Done count,
provided all senders are among the N workers. -/
theorem countDones_eventsOf_sum (N : Nat) (d : Delivery)
    (hN : ∀ p ∈ d, p.1 < N) :
    countDones (d.map Prod.snd) = ∑ i in Finset.range N, countDones (eventsOf i d) := by
  induction d with
  | nil => simp [countDones, eventsOf]
  | cons q d ih =>
    have hqN : q.1 < N := hN q (List.mem_cons_self q d)
    have ih2 := ih (fun p hp => hN p (List.mem_cons_of_mem q hp))
    have hev : ∀ i, countDones (eventsOf i (q :: d)) =
        countDones (eventsOf i d) +
          (if q.1 = i then (if q.2.isDone then 1 else 0) else 0) := by
      intro i
      by_cases hqi : q.1 = i
      · simp [eventsOf, List.filter_cons, hqi, countDones, List.countP_cons]
      · simp [eventsOf, List.filter_cons, hqi, countDones]
    calc countDones ((q :: d).map Prod.snd)
        = countDones (d.map Prod.snd) + (if q.2.isDone then 1 else 0) := by
          simp only [List.map_cons, countDones, List.countP_cons]
      _ = (∑ i in Finset.range N, countDones (eventsOf i d)) +
            (if q.2.isDone then 1 else 0) := by rw [ih2]
      _ = ∑ i in Finset.range N, countDones (eventsOf i (q :: d)) := by
          rw [Finset.sum_congr rfl (fun i _ => hev i), Finset.sum_add_distrib]
          congr 1
          rw [Finset.sum_ite_eq (Finset.range N) q.1
            (fun _ => if q.2.isDone then 1 else 0)]
          simp [Finset.mem_range.2 hqN]

theorem countDones_traceShape (i : Nat) (v : Nat → String) :
    countDones (traceShape i v) = 1 := by
  simp [traceShape, countDones, List.countP_cons, Update.isDone]

/-- A list delivered in emission order from one worker contains at most one
Done. -/
theorem countDones_le_one_of_trace_part (l : List Update) (i : Nat)
    (v : Nat → String) (h : l <+: traceShape i v) : countDones l ≤ 1 :=
  le_of_le_of_eq (List.Sublist.countP_le _ h.sublist) (countDones_traceShape i v)

/-- C5: the completion counter after the drain equals the number of Done
events applied — one increment per Done; when the delivered list comes from
the N workers, each delivering in emission order (hence each contributing
at most its single trailing Done), the counter never exceeds N, the normal
exit condition holds exactly when the counter equals N, and at that point
every worker's Done has been applied. -/
theorem completion_counter_spec :
    ∀ (N : Nat) (d : Delivery),
      (∀ p ∈ d, p.1 < N) →
      (∀ i, i < N → ∃ v : Nat → String, eventsOf i d <+: traceShape i v) →
      (applyDelivery (initState N) d).done_count = countDones (d.map Prod.snd) ∧
      (applyDelivery (initState N) d).done_count ≤ N ∧
      (exitDone N (applyDelivery (initState N) d) ↔
        (applyDelivery (initState N) d).done_count = N) ∧
      ((applyDelivery (initState N) d).done_count = N →
        ∀ i, i < N → Update.done ∈ eventsOf i d) := by
  intro N d hN htr
  have hcount : (applyDelivery (initState N) d).done_count =
      countDones (d.map Prod.snd) := by
    simpa [initState] using done_count_applyDelivery d (initState N)
  have hsum := countDones_eventsOf_sum N d hN
  have hbound : ∀ i ∈ Finset.range N, countDones (eventsOf i d) ≤ 1 := by
    intro i hi
    obtain ⟨v, hv⟩ := htr i (Finset.mem_range.1 hi)
    exact countDones_le_one_of_trace_part _ i v hv
  have hle : countDones (d.map Prod.snd) ≤ N := by
    rw [hsum]
    calc ∑ i in Finset.range N, countDones (eventsOf i d)
        ≤ ∑ _i in Finset.range N, 1 := Finset.sum_le_sum hbound
      _ = N := by simp
  refine ⟨hcount, by rw [hcount]; exact hle, ?_, ?_⟩
  · constructor
    · intro hexit
      have hge : N ≤ (applyDelivery (initState N) d).done_count := hexit
      omega
    · intro heq
      show N ≤ (applyDelivery (initState N) d).done_count
      omega
  · intro heq i hiN
    have hsum2 : ∑ i in Finset.range N, countDones (eventsOf i d) =
        ∑ _i in Finset.range N, 1 := by
      rw [← hsum, ← hcount, heq]
      simp
    have hall := (Finset.sum_eq_sum_iff_of_le hbound).1 hsum2
    have h1 : countDones (eventsOf i d) = 1 := hall i (Finset.mem_range.2 hiN)
    by_contra hnot
    have h0 : countDones (eventsOf i d) = 0 := by
      apply List.countP_eq_zero.2
      intro a ha
      cases a with
      | set i2 j2 v2 => simp [Update.isDone]
      | done => exact absurd ha hnot
    omega

/-- C5 witness: one node delivering its full trace — the counter is at most
1, the exit condition holds, and the node's Done was applied. -/
theorem completion_counter_spec_witness :
    (applyDelivery (initState 1) cDeliv).done_count ≤ 1 ∧
    Update.done ∈ eventsOf 0 cDeliv := by
  have h := completion_counter_spec 1 cDeliv (by decide)
    (fun i hi => by
      have hi0 : i = 0 := by omega
      subst hi0
      exact ⟨vW, [], by decide⟩)
  have hx : (1 : Nat) ≤ (applyDelivery (initState 1) cDeliv).done_count := by decide
  exact ⟨h.2.1, h.2.2.2 (h.2.2.1.1 hx) 0 (by decide)⟩

/-- C2 (exhibiting the divergence): when the first iteration's draw call
fails, the run returns the error having performed only enableRaw and
enterAlt — the terminal is left in raw/alternate-screen mode, with no
disableRaw on that exit path; by contrast, the cancellation exit does
restore. This contradicts the claim that every exit path, including error
returns, restores the terminal. -/
theorem render_error_skips_restore :
    runMountTui 1
        [⟨[], Except.error "draw: broken pipe", Except.ok false, Except.ok none⟩] =
      ([TermOp.enableRaw, TermOp.enterAlt], some (Except.error "draw: broken pipe")) ∧
    TermOp.disableRaw ∉ (runMountTui 1
        [⟨[], Except.error "draw: broken pipe", Except.ok false,
          Except.ok none⟩]).1 ∧
    runMountTui 1 [⟨[], Except.ok (), Except.ok true, Except.ok (some 'q')⟩] =
      ([TermOp.enableRaw, TermOp.enterAlt, TermOp.disableRaw, TermOp.leaveAlt],
        some (Except.ok ())) := by
  refine ⟨rfl, by decide, rfl⟩

/-- C9 counterexample: the quit key is not operator-selected — no run
parameter carries it (see `ClientMountArgs`) and a designated key other
than q does not cancel: pressing x in an iteration with work outstanding
continues the loop, while only the hardcoded q breaks it. -/
theorem quit_key_not_selectable_counterexample :
    stepIter 1 (initState 1)
        ⟨[], Except.ok (), Except.ok true, Except.ok (some 'x')⟩ =
      IterResult.next (initState 1) ∧
    stepIter 1 (initState 1)
        ⟨[], Except.ok (), Except.ok true, Except.ok (some 'q')⟩ =
      IterResult.broke (initState 1) LoopExit.cancelled := by
  exact ⟨by decide, by decide⟩

/-- C9 (amended): the quit key is the fixed character q rather than an
operator-selected parameter; whenever the operator presses q while the loop
is running — whatever events were drained and however many workers are
still outstanding — the loop breaks as cancelled in that same iteration,
and the run finishes as cancelled right there. -/
theorem quit_key_q_cancels :
    ∀ (total : Nat) (s : AggState) (evs : Delivery) (rest : List IterInput),
      stepIter total s ⟨evs, Except.ok (), Except.ok true, Except.ok (some 'q')⟩ =
        IterResult.broke (applyDelivery s evs) LoopExit.cancelled ∧
      runLoop total s
          (⟨evs, Except.ok (), Except.ok true, Except.ok (some 'q')⟩ :: rest) =
        RunOutcome.finished (applyDelivery s evs) LoopExit.cancelled := by
  intro total s evs rest
  constructor
  · show (if some 'q' = some 'q' then
        IterResult.broke (applyDelivery s evs) LoopExit.cancelled
      else if total ≤ (applyDelivery s evs).done_count then
        IterResult.broke (applyDelivery s evs) LoopExit.allDone
      else IterResult.next (applyDelivery s evs)) =
      IterResult.broke (applyDelivery s evs) LoopExit.cancelled
    rw [if_pos rfl]
  · show (match stepIter total s
        ⟨evs, Except.ok (), Except.ok true, Except.ok (some 'q')⟩ with
      | .next s2 => runLoop total s2 rest
      | .broke s2 e => RunOutcome.finished s2 e
      | .err s2 m => RunOutcome.failed s2 m) =
      RunOutcome.finished (applyDelivery s evs) LoopExit.cancelled
    have hstep : stepIter total s
        ⟨evs, Except.ok (), Except.ok true, Except.ok (some 'q')⟩ =
        IterResult.broke (applyDelivery s evs) LoopExit.cancelled := by
      show (if some 'q' = some 'q' then
          IterResult.broke (applyDelivery s evs) LoopExit.cancelled
        else if total ≤ (applyDelivery s evs).done_count then
          IterResult.broke (applyDelivery s evs) LoopExit.allDone
        else IterResult.next (applyDelivery s evs)) =
        IterResult.broke (applyDelivery s evs) LoopExit.cancelled
      rw [if_pos rfl]
    rw [hstep]

end Beeg
